import Mathlib

set_option maxHeartbeats 1000000

/-!
Shallow embedding of `src/transform.py` (pricat → catalog transformer).

Python dicts are modelled as insertion-ordered association lists with unique
keys; Python sets as lists used only through membership; Python exceptions as
`Except String` carrying the raised message.  Rows are the normalized rows the
CSV reader yields (every value a string, `None` already replaced by `""`), so
the core functions below are given a `List Row` directly: file reading and
JSON serialization are the external collaborators the spec excludes.
-/

namespace Pricat

/-- Lookup in an insertion-ordered association list (Python `dict` access):
the first entry whose key matches. -/
def dget {κ α : Type} [DecidableEq κ] : List (κ × α) → κ → Option α
  | [], _ => none
  | (k', v) :: rest, k => if k' = k then some v else dget rest k

/-- Python `d[k] = v`: overwrite in place when the key exists (keeping its
position), otherwise append a new entry at the end. -/
def dset {κ α : Type} [DecidableEq κ] : List (κ × α) → κ → α → List (κ × α)
  | [], k, v => [(k, v)]
  | (k', v') :: rest, k, v =>
    if k' = k then (k', v) :: rest else (k', v') :: dset rest k v

/-- The keys of an association list, in order. -/
def keysOf {κ α : Type} (d : List (κ × α)) : List κ := d.map Prod.fst

/-- A normalized CSV row: field name → string value. -/
abbrev Row := List (String × String)

/-- Python `row.get(field, "")`. -/
def rowGet (row : Row) (k : String) : String := (dget row k).getD ""

/-- The characters Python `str.strip()` removes (ASCII whitespace). -/
def isPySpace (c : Char) : Bool :=
  c == ' ' || c == '\t' || c == '\n' || c == '\r' || c == '\x0b' || c == '\x0c'

/-- Drop leading whitespace characters. -/
def dropLeadingWs : List Char → List Char
  | [] => []
  | c :: cs => if isPySpace c then dropLeadingWs cs else c :: cs

/-- Python `s.strip()` (for the ASCII whitespace the feeds contain). -/
def pyStrip (s : String) : String :=
  String.mk ((dropLeadingWs (dropLeadingWs s.toList).reverse).reverse)

/-- Worker for `splitPipe`: accumulates the current (reversed) chunk. -/
def splitPipeAux (cur : List Char) : List Char → List (List Char)
  | [] => [cur.reverse]
  | c :: cs =>
    if c == '|' then cur.reverse :: splitPipeAux [] cs
    else splitPipeAux (c :: cur) cs

/-- Python `s.split("|")`: split on every pipe, keeping empty chunks. -/
def splitPipe (l : List Char) : List (List Char) := splitPipeAux [] l

/-- Python `sep.join(parts)`. -/
def joinWith (sep : String) : List String → String
  | [] => ""
  | [v] => v
  | v :: rest => v ++ sep ++ joinWith sep rest

/-- Consume the rest of a Python numeric digit-part: digits with single
underscores allowed only between digits; returns the unconsumed suffix. -/
def digitsRest : List Char → List Char
  | [] => []
  | c :: cs =>
    if c.isDigit then digitsRest cs
    else if c == '_' then
      match cs with
      | d :: cs' => if d.isDigit then digitsRest cs' else c :: cs
      | [] => c :: cs
    else c :: cs

/-- Consume a whole digit-part (at least one digit); `none` when the input
does not start with a digit. -/
def digitPart : List Char → Option (List Char)
  | [] => none
  | c :: cs => if c.isDigit then some (digitsRest cs) else none

/-- Consume an optional fraction digit-part after the decimal point. -/
def fracOpt (l : List Char) : List Char :=
  match digitPart l with
  | some r => r
  | none => l

/-- Consume the mantissa of a float literal:
`digits [. [digits]]` or `. digits`. -/
def mantissa (l : List Char) : Option (List Char) :=
  match digitPart l with
  | some r =>
    match r with
    | '.' :: cs => some (fracOpt cs)
    | _ => some r
  | none =>
    match l with
    | '.' :: cs => digitPart cs
    | _ => none

/-- Consume an optional well-formed exponent (`e`/`E`, optional sign,
digit-part); when the exponent is malformed the input is returned unchanged
so the leftover makes the whole literal be rejected. -/
def expOpt (l : List Char) : List Char :=
  match l with
  | [] => []
  | c :: cs =>
    if c == 'e' || c == 'E' then
      match cs with
      | [] => c :: cs
      | s :: cs' =>
        if s == '+' || s == '-' then
          match digitPart cs' with
          | some r => r
          | none => c :: cs
        else
          match digitPart cs with
          | some r => r
          | none => c :: cs
    else c :: cs

/-- Drop one optional leading sign. -/
def dropSign : List Char → List Char
  | [] => []
  | c :: cs => if c == '+' || c == '-' then cs else c :: cs

/-- The named special floats `inf`, `infinity`, `nan` (case-insensitive). -/
def namedFloatBody (l : List Char) : Bool :=
  let low := l.map Char.toLower
  low == "inf".toList || low == "infinity".toList || low == "nan".toList

/-- Models acceptance by CPython `float(s)` for ASCII input: optional
whitespace and sign, then a special name or a decimal literal with optional
fraction and exponent and with underscores only between digits.  This is the
collaborator behaviour behind `float(v)` at transform.py line 107; the claims
only ever depend on whether a given string is accepted or rejected. -/
def pyFloatAccepts (s : String) : Bool :=
  let l := dropSign (pyStrip s).toList
  namedFloatBody l ||
    (match mantissa l with
     | some r => expOpt r == []
     | none => false)

/-- A value stored in a variation: either a raw string or the number produced
by Python `float(v)`.  The numeric payload is represented by the source text
it was parsed from — no claim inspects the IEEE value itself, only whether a
number or the original string was stored. -/
inductive Value where
  | str : String → Value
  | num : String → Value
  deriving DecidableEq

/-- One output record per pricat row (transform.py's `variation` dict). -/
abbrev Variation := List (String × Value)

/-- `NUMERIC_FIELDS` at transform.py line 14. -/
def NUMERIC_FIELDS : List String :=
  ["price_buy_net", "price_buy_gross", "price_sell", "discount_rate"]

/-- The value the raw-copy pass stores for field `k` with raw value `v`
(transform.py lines 104-112): `float(v)` for a numeric field when it parses,
the raw string on `ValueError`, and the raw string for any other field. -/
def coerceValue (k v : String) : Value :=
  if k ∈ NUMERIC_FIELDS then
    if pyFloatAccepts v then Value.num v else Value.str v
  else Value.str v

/-- The two-level mapping index
`{source_field_tuple → {joined_literal → (dest_field, dest_value)}}`. -/
abbrev MappingIndex := List (List String × List (String × (String × String)))

/-- The mapping-application loop of `row_to_variation`
(transform.py lines 76-93), with the variation and consumed set threaded
through explicitly. -/
def applyMappingsAux (row : Row) :
    MappingIndex → List (String × Value) → List String →
      List (String × Value) × List String
  | [], variation, consumed => (variation, consumed)
  | (fields_tuple, table) :: rest, variation, consumed =>
    let values := fields_tuple.map (fun field_name => rowGet row field_name)
    let joined := joinWith "|" values
    match dget table joined with
    | none => applyMappingsAux row rest variation consumed
    | some (dest_type, dest_value) =>
      applyMappingsAux row rest
        (dset variation dest_type (Value.str dest_value))
        (consumed ++ fields_tuple)

/-- The raw-copy loop of `row_to_variation` (transform.py lines 95-112):
skip `brand`, consumed fields and empty values; otherwise store the (possibly
numerically coerced) value. -/
def copyRest : List (String × String) → List String →
    List (String × Value) → List (String × Value)
  | [], _, variation => variation
  | (k, v) :: rest, consumed, variation =>
    if k = "brand" then copyRest rest consumed variation
    else if k ∈ consumed then copyRest rest consumed variation
    else if v = "" then copyRest rest consumed variation
    else copyRest rest consumed (dset variation k (coerceValue k v))

/-- `row_to_variation` (transform.py lines 62-114). -/
def row_to_variation (row : Row) (mappings_idx : MappingIndex) : Variation :=
  let s := applyMappingsAux row mappings_idx [] []
  copyRest row s.2 s.1

/-- Rendering of a row used inside raised messages, standing in for Python
`repr` of a string-valued dict. -/
def rowRepr (r : Row) : String :=
  "\x7b" ++
    joinWith ", " (r.map (fun p => "\x27" ++ p.1 ++ "\x27: \x27" ++ p.2 ++ "\x27")) ++
    "\x7d"

/-- Message raised at transform.py line 50. -/
def invalidTypesMsg (r : Row) : String :=
  "Mapping row invalid (source_type/destination_type empty): " ++ rowRepr r

/-- Message raised at transform.py line 54. -/
def invalidFieldsMsg (r : Row) : String :=
  "Mapping row invalid (empty fields): " ++ rowRepr r

/-- Message raised at transform.py lines 135-137. -/
def inconsistentBrandMsg (catalog_brand row_brand : String) : String :=
  "Inconsistent brand in pricat: catalog_brand=\x27" ++ catalog_brand ++
    "\x27 vs row_brand=\x27" ++ row_brand ++ "\x27"

/-- Message raised at transform.py line 142. -/
def missingArticleMsg (r : Row) : String :=
  "pricat row without article_number: " ++ rowRepr r

/-- Message raised at transform.py lines 197-200. -/
def mismatchMsg (rows_processed total_variations : Nat) : String :=
  "Mismatch rows vs variations: rows_processed=" ++ toString rows_processed ++
    ", total_variations=" ++ toString total_variations

/-- `source_type_raw` at transform.py line 44. -/
def ruleSourceType (r : Row) : String := pyStrip (rowGet r "source_type")

/-- `source` at transform.py line 45. -/
def ruleSource (r : Row) : String := pyStrip (rowGet r "source")

/-- `dest_type` at transform.py line 46. -/
def ruleDestType (r : Row) : String := pyStrip (rowGet r "destination_type")

/-- `dest_value` at transform.py line 47. -/
def ruleDestValue (r : Row) : String := pyStrip (rowGet r "destination")

/-- `fields` at transform.py line 52: split `source_type` on `|`, strip each
part, discard empty parts. -/
def ruleFields (r : Row) : List String :=
  ((splitPipe (ruleSourceType r).toList).map
      (fun part => pyStrip (String.mk part))).filter (fun part => part != "")

/-- `idx[fields][source] = (dest_type, dest_value)` on the defaultdict at
transform.py line 56: access creates the empty inner table if needed. -/
def idxInsert (idx : MappingIndex) (fields : List String)
    (source dest_type dest_value : String) : MappingIndex :=
  match dget idx fields with
  | none => idx ++ [(fields, [(source, (dest_type, dest_value))])]
  | some table => dset idx fields (dset table source (dest_type, dest_value))

/-- The loop of `load_mappings_index` (transform.py lines 43-56). -/
def load_mappings_aux : List Row → MappingIndex → Except String MappingIndex
  | [], idx => Except.ok idx
  | r :: rest, idx =>
    if ruleSourceType r = "" ∨ ruleDestType r = "" then
      Except.error (invalidTypesMsg r)
    else if ruleFields r = [] then Except.error (invalidFieldsMsg r)
    else
      load_mappings_aux rest
        (idxInsert idx (ruleFields r) (ruleSource r) (ruleDestType r) (ruleDestValue r))

/-- `load_mappings_index` (transform.py lines 40-58), over the already-read
rule rows. -/
def load_mappings_index (rules : List Row) : Except String MappingIndex :=
  load_mappings_aux rules []

/-- An article: number plus its variations in row order
(transform.py lines 148-152). -/
structure Article where
  article_number : String
  variations : List Variation
  deriving DecidableEq

/-- The catalog value (transform.py lines 163-169). -/
structure Catalog where
  brand : String
  articles : List Article
  deriving DecidableEq

/-- The brand handling per row (transform.py lines 128-137): adopt the first
row's brand, then require exact equality. -/
def brandCheck (catalog_brand : Option String) (row_brand : String) :
    Except String String :=
  match catalog_brand with
  | none => Except.ok row_brand
  | some b =>
    if row_brand ≠ b then Except.error (inconsistentBrandMsg b row_brand)
    else Except.ok b

/-- Create-if-missing then append (transform.py lines 147-155): a new article
gets an empty variation list and the variation is appended at the end. -/
def addVariation : List (String × Article) → String → Variation →
    List (String × Article)
  | [], an, v => [(an, ⟨an, [v]⟩)]
  | (k, a) :: rest, an, v =>
    if k = an then (k, ⟨a.article_number, a.variations ++ [v]⟩) :: rest
    else (k, a) :: addVariation rest an v

/-- The loop of `build_catalog_from_pricat` (transform.py lines 126-155) with
the accumulators passed explicitly. -/
def build_catalog_aux (mappings_idx : MappingIndex) :
    List Row → List (String × Article) → Option String → Nat →
      Except String (List (String × Article) × Option String × Nat)
  | [], abn, cb, n => Except.ok (abn, cb, n)
  | row :: rest, abn, cb, n =>
    match brandCheck cb (rowGet row "brand") with
    | Except.error e => Except.error e
    | Except.ok b =>
      if rowGet row "article_number" = "" then
        Except.error (missingArticleMsg row)
      else
        build_catalog_aux mappings_idx rest
          (addVariation abn (rowGet row "article_number")
            (row_to_variation row mappings_idx))
          (some b) (n + 1)

/-- `build_catalog_from_pricat` (transform.py lines 118-171), over the
already-read pricat rows. -/
def build_catalog_from_pricat (rows : List Row) (mappings_idx : MappingIndex) :
    Except String (Catalog × Nat) :=
  match build_catalog_aux mappings_idx rows [] none 0 with
  | Except.error e => Except.error e
  | Except.ok (abn, cb, n) => Except.ok (⟨cb.getD "", abn.map Prod.snd⟩, n)

/-- A Python value-tree as handled by `basic_validations`: strings, numbers,
lists and string-keyed dicts.  As in `Value`, a number is represented by the
text it was parsed from. -/
inductive JValue where
  | str : String → JValue
  | num : String → JValue
  | arr : List JValue → JValue
  | obj : List (String × JValue) → JValue

/-- Injection of a variation value into the value-tree. -/
def valueToJ : Value → JValue
  | Value.str s => JValue.str s
  | Value.num s => JValue.num s

/-- The variation dict as a value-tree node. -/
def variationToJ (v : Variation) : JValue :=
  JValue.obj (v.map (fun p => (p.1, valueToJ p.2)))

/-- The article dict literal of transform.py lines 149-152. -/
def articleToJ (a : Article) : JValue :=
  JValue.obj [("article_number", JValue.str a.article_number),
              ("variations", JValue.arr (a.variations.map variationToJ))]

/-- The result dict literal of transform.py lines 164-169. -/
def catalogToJ (c : Catalog) : List (String × JValue) :=
  [("catalog",
    JValue.obj [("brand", JValue.str c.brand),
                ("articles", JValue.arr (c.articles.map articleToJ))])]

/-- `needle` starts `hay`. -/
def listStartsWith : List Char → List Char → Bool
  | _, [] => true
  | [], _ :: _ => false
  | c :: cs, d :: ds => c == d && listStartsWith cs ds

/-- `needle` occurs somewhere in `hay` (Python substring containment). -/
def strOccurs : List Char → List Char → Bool
  | [], needle => needle.isEmpty
  | c :: rest, needle => listStartsWith (c :: rest) needle || strOccurs rest needle

/-- Python `k in x` for the value shapes that can occur in a catalog
document: key membership for a dict, substring test for a string, element
equality for a list, `TypeError` for a number. -/
def pyContainsKey : JValue → String → Except String Bool
  | JValue.obj fields, k => Except.ok (dget fields k).isSome
  | JValue.str s, k => Except.ok (strOccurs s.toList k.toList)
  | JValue.arr xs, k =>
    Except.ok (xs.any (fun x => match x with | JValue.str s => s == k | _ => false))
  | JValue.num _, _ =>
    Except.error "TypeError: argument of type \x27float\x27 is not iterable"

/-- Python `x[k]` for a string key. -/
def pySubscript : JValue → String → Except String JValue
  | JValue.obj fields, k =>
    match dget fields k with
    | some v => Except.ok v
    | none => Except.error ("KeyError: \x27" ++ k ++ "\x27")
  | JValue.str _, _ => Except.error "TypeError: string indices must be integers"
  | JValue.arr _, _ =>
    Except.error "TypeError: list indices must be integers or slices, not str"
  | JValue.num _, _ => Except.error "TypeError: \x27float\x27 object is not subscriptable"

/-- Python `article.get("variations", [])` (transform.py line 192). -/
def pyGetVariationsDefault : JValue → Except String JValue
  | JValue.obj fields => Except.ok ((dget fields "variations").getD (JValue.arr []))
  | JValue.str _ => Except.error "AttributeError: \x27str\x27 object has no attribute \x27get\x27"
  | JValue.arr _ => Except.error "AttributeError: \x27list\x27 object has no attribute \x27get\x27"
  | JValue.num _ => Except.error "AttributeError: \x27float\x27 object has no attribute \x27get\x27"

/-- The variation-counting loop of `basic_validations`
(transform.py lines 190-195). -/
def countVariationsAux : List JValue → Nat → Except String Nat
  | [], total => Except.ok total
  | article :: rest, total =>
    match pyGetVariationsDefault article with
    | Except.error e => Except.error e
    | Except.ok vars_list =>
      match vars_list with
      | JValue.arr vs => countVariationsAux rest (total + vs.length)
      | _ => Except.error "Some \x27article.variations\x27 are not a list."

/-- `basic_validations` (transform.py lines 175-200). -/
def basic_validations (result : List (String × JValue)) (rows_processed : Nat) :
    Except String Unit :=
  match dget result "catalog" with
  | none => Except.error "JSON has no \x27catalog\x27 key"
  | some catalog =>
    match pyContainsKey catalog "articles" with
    | Except.error e => Except.error e
    | Except.ok hasArticles =>
      if !hasArticles then Except.error "JSON has no \x27catalog.articles\x27"
      else
        match pySubscript catalog "articles" with
        | Except.error e => Except.error e
        | Except.ok articles =>
          match articles with
          | JValue.arr arts =>
            match countVariationsAux arts 0 with
            | Except.error e => Except.error e
            | Except.ok total_variations =>
              if total_variations ≠ rows_processed then
                Except.error (mismatchMsg rows_processed total_variations)
              else Except.ok ()
          | _ => Except.error "\x27catalog.articles\x27 is not a list."

/-- First-occurrence deduplication, relative to the keys in `seen`. -/
def firstOccsAux (seen : List String) : List String → List String
  | [] => []
  | x :: xs =>
    if x ∈ seen then firstOccsAux seen xs
    else x :: firstOccsAux (seen ++ [x]) xs

/-- The distinct elements of a list in order of first occurrence. -/
def firstOccs (l : List String) : List String := firstOccsAux [] l

/-- The article number a pricat row is grouped under (transform.py line 140). -/
def rowArticle (r : Row) : String := rowGet r "article_number"

/-- The brand a pricat row carries (transform.py line 128). -/
def rowBrand (r : Row) : String := rowGet r "brand"

/-! ### Association-list lemmas -/

theorem keysOf_cons {κ α : Type} (k : κ) (v : α) (d : List (κ × α)) :
    keysOf ((k, v) :: d) = k :: keysOf d := rfl

theorem mem_keysOf_of_mem {κ α : Type} {d : List (κ × α)} {k : κ} {v : α}
    (h : (k, v) ∈ d) : k ∈ keysOf d :=
  List.mem_map.2 ⟨(k, v), h, rfl⟩

theorem dget_dset_self {κ α : Type} [DecidableEq κ] (d : List (κ × α)) (k : κ) (v : α) :
    dget (dset d k v) k = some v := by
  induction d with
  | nil => simp [dget, dset]
  | cons p rest ih =>
    obtain ⟨k', v'⟩ := p
    by_cases h : k' = k
    · simp [dget, dset, h]
    · simp [dget, dset, h, ih]

theorem dget_dset_other {κ α : Type} [DecidableEq κ] (d : List (κ × α)) (k k' : κ) (v : α)
    (h : k' ≠ k) : dget (dset d k v) k' = dget d k' := by
  have h' : ¬ k = k' := fun he => h he.symm
  induction d with
  | nil => simp [dget, dset, h']
  | cons p rest ih =>
    obtain ⟨k₀, v₀⟩ := p
    by_cases h0 : k₀ = k
    · subst h0
      simp [dget, dset, h']
    · simp only [dset, if_neg h0, dget]
      by_cases h1 : k₀ = k'
      · simp [h1]
      · simp [h1, ih]

theorem dget_dset_isSome {κ α : Type} [DecidableEq κ] (d : List (κ × α)) (k k' : κ) (v : α)
    (h : (dget d k').isSome) : (dget (dset d k v) k').isSome := by
  by_cases hk : k' = k
  · subst hk; simp [dget_dset_self]
  · rwa [dget_dset_other d k k' v hk]

theorem mem_of_dget {κ α : Type} [DecidableEq κ] {d : List (κ × α)} {k : κ} {v : α}
    (h : dget d k = some v) : (k, v) ∈ d := by
  induction d with
  | nil => simp [dget] at h
  | cons p rest ih =>
    obtain ⟨k₀, v₀⟩ := p
    by_cases h0 : k₀ = k
    · subst h0
      simp [dget] at h
      simp [h]
    · simp [dget, h0] at h
      exact List.mem_cons_of_mem _ (ih h)

theorem dget_append {κ α : Type} [DecidableEq κ] (d₁ d₂ : List (κ × α)) (k : κ) :
    dget (d₁ ++ d₂) k =
      match dget d₁ k with
      | some v => some v
      | none => dget d₂ k := by
  induction d₁ with
  | nil => simp [dget]
  | cons p rest ih =>
    obtain ⟨k₀, v₀⟩ := p
    by_cases h0 : k₀ = k
    · simp [dget, h0]
    · simp [dget, h0, ih]

theorem dget_eq_none_of_not_mem {κ α : Type} [DecidableEq κ] {d : List (κ × α)} {k : κ}
    (h : k ∉ keysOf d) : dget d k = none := by
  induction d with
  | nil => simp [dget]
  | cons p rest ih =>
    obtain ⟨k₀, v₀⟩ := p
    rw [keysOf_cons] at h
    have h1 : ¬ k₀ = k := fun he => h (by simp [he])
    have h2 : k ∉ keysOf rest := fun hm => h (List.mem_cons_of_mem _ hm)
    simp [dget, h1, ih h2]

theorem dget_of_mem_nodup {κ α : Type} [DecidableEq κ] {d : List (κ × α)} {k : κ} {v : α}
    (hnd : (keysOf d).Nodup) (h : (k, v) ∈ d) : dget d k = some v := by
  induction d with
  | nil => simp at h
  | cons p rest ih =>
    obtain ⟨k₀, v₀⟩ := p
    rw [keysOf_cons, List.nodup_cons] at hnd
    rcases List.mem_cons.1 h with h' | h'
    · injection h' with h1 h2
      subst h1; subst h2
      simp [dget]
    · have hk : ¬ k₀ = k := by
        intro he
        subst he
        exact hnd.1 (mem_keysOf_of_mem h')
      simp [dget, hk]
      exact ih hnd.2 h'

/-! ### Variation-builder lemmas -/

/-- Fields already consumed stay consumed through the mapping pass. -/
theorem applyMappings_consumed_mono (row : Row) (idx : MappingIndex)
    (variation : List (String × Value)) (consumed : List String) (c : String)
    (h : c ∈ consumed) : c ∈ (applyMappingsAux row idx variation consumed).2 := by
  induction idx generalizing variation consumed with
  | nil => simpa [applyMappingsAux] using h
  | cons p rest ih =>
    obtain ⟨ft, table⟩ := p
    simp only [applyMappingsAux]
    cases hget : dget table (joinWith "|" (ft.map (fun f => rowGet row f))) with
    | none => exact ih _ _ h
    | some hit =>
      obtain ⟨dt, dv⟩ := hit
      exact ih _ _ (List.mem_append_left _ h)

/-- Keys present in the variation stay present through the mapping pass. -/
theorem applyMappings_key_mono (row : Row) (idx : MappingIndex)
    (variation : List (String × Value)) (consumed : List String) (k : String)
    (h : (dget variation k).isSome) :
    (dget (applyMappingsAux row idx variation consumed).1 k).isSome := by
  induction idx generalizing variation consumed with
  | nil => simpa [applyMappingsAux] using h
  | cons p rest ih =>
    obtain ⟨ft, table⟩ := p
    simp only [applyMappingsAux]
    cases hget : dget table (joinWith "|" (ft.map (fun f => rowGet row f))) with
    | none => exact ih _ _ h
    | some hit =>
      obtain ⟨dt, dv⟩ := hit
      exact ih _ _ (dget_dset_isSome _ _ _ _ h)

/-- If no rule of the index has destination field `k`, the mapping pass
leaves the variation's entry at `k` unchanged. -/
theorem applyMappings_dget_of_no_dest (row : Row) (idx : MappingIndex)
    (variation : List (String × Value)) (consumed : List String) (k : String)
    (h : ∀ p ∈ idx, ∀ q ∈ p.2, q.2.1 ≠ k) :
    dget (applyMappingsAux row idx variation consumed).1 k = dget variation k := by
  induction idx generalizing variation consumed with
  | nil => simp [applyMappingsAux]
  | cons p rest ih =>
    obtain ⟨ft, table⟩ := p
    have hrest : ∀ p ∈ rest, ∀ q ∈ p.2, q.2.1 ≠ k :=
      fun p hp q hq => h p (List.mem_cons_of_mem _ hp) q hq
    simp only [applyMappingsAux]
    cases hget : dget table (joinWith "|" (ft.map (fun f => rowGet row f))) with
    | none => exact ih _ _ hrest
    | some hit =>
      obtain ⟨dt, dv⟩ := hit
      have hdt : dt ≠ k := h (ft, table) (List.mem_cons_self _ _) _ (mem_of_dget hget)
      rw [ih _ _ hrest]
      exact dget_dset_other _ _ _ _ (fun he => hdt he.symm)

/-- A rule hit really fires: once an entry of the index hits, its destination
key is present after the pass and all its source field names are consumed. -/
theorem applyMappings_fires (row : Row) (idx : MappingIndex)
    (variation : List (String × Value)) (consumed : List String)
    (ft : List String) (table : List (String × (String × String))) (d w : String)
    (hmem : (ft, table) ∈ idx)
    (hhit : dget table (joinWith "|" (ft.map (fun f => rowGet row f))) = some (d, w)) :
    (dget (applyMappingsAux row idx variation consumed).1 d).isSome ∧
      ∀ f ∈ ft, f ∈ (applyMappingsAux row idx variation consumed).2 := by
  induction idx generalizing variation consumed with
  | nil => simp at hmem
  | cons p rest ih =>
    obtain ⟨ft', table'⟩ := p
    rcases List.mem_cons.1 hmem with h | h
    · injection h with h1 h2
      subst h1; subst h2
      simp only [applyMappingsAux, hhit]
      constructor
      · exact applyMappings_key_mono _ _ _ _ _ (by simp [dget_dset_self])
      · intro f hf
        exact applyMappings_consumed_mono _ _ _ _ _ (List.mem_append_right _ hf)
    · simp only [applyMappingsAux]
      cases hget : dget table' (joinWith "|" (ft'.map (fun f => rowGet row f))) with
      | none => exact ih _ _ h
      | some hit =>
        obtain ⟨dt, dv⟩ := hit
        exact ih _ _ h

/-- The raw-copy pass leaves the entry at key `k` unchanged when every row
entry named `k` is skipped (brand, consumed, or empty). -/
theorem copyRest_dget_of_skipped (entries : List (String × String))
    (consumed : List String) (variation : List (String × Value)) (k : String)
    (h : ∀ v', (k, v') ∈ entries → k = "brand" ∨ k ∈ consumed ∨ v' = "") :
    dget (copyRest entries consumed variation) k = dget variation k := by
  induction entries generalizing variation with
  | nil => simp [copyRest]
  | cons p rest ih =>
    obtain ⟨k₀, v₀⟩ := p
    have hrest : ∀ v', (k, v') ∈ rest → k = "brand" ∨ k ∈ consumed ∨ v' = "" :=
      fun v' hv => h v' (List.mem_cons_of_mem _ hv)
    simp only [copyRest]
    by_cases hb : k₀ = "brand"
    · simp [hb, ih _ hrest]
    · simp only [if_neg hb]
      by_cases hc : k₀ ∈ consumed
      · simp [hc, ih _ hrest]
      · simp only [if_neg hc]
        by_cases he : v₀ = ""
        · simp [he, ih _ hrest]
        · simp only [if_neg he]
          have hk : k₀ ≠ k := by
            intro hkk
            subst hkk
            rcases h v₀ (List.mem_cons_self _ _) with h' | h' | h'
            · exact hb h'
            · exact hc h'
            · exact he h'
          rw [ih _ hrest]
          exact dget_dset_other _ _ _ _ (fun he' => hk he'.symm)

/-- Keys present in the variation stay present through the raw-copy pass. -/
theorem copyRest_key_mono (entries : List (String × String))
    (consumed : List String) (variation : List (String × Value)) (k : String)
    (h : (dget variation k).isSome) :
    (dget (copyRest entries consumed variation) k).isSome := by
  induction entries generalizing variation with
  | nil => simpa [copyRest] using h
  | cons p rest ih =>
    obtain ⟨k₀, v₀⟩ := p
    simp only [copyRest]
    by_cases hb : k₀ = "brand"
    · simp [hb, ih _ h]
    · simp only [if_neg hb]
      by_cases hc : k₀ ∈ consumed
      · simp [hc, ih _ h]
      · simp only [if_neg hc]
        by_cases he : v₀ = ""
        · simp [he, ih _ h]
        · simp only [if_neg he]
          exact ih _ (dget_dset_isSome _ _ _ _ h)

/-- The raw-copy pass stores the (coerced) raw value of a non-brand,
non-consumed, non-empty field of a duplicate-free row. -/
theorem copyRest_dget_writes (entries : List (String × String))
    (consumed : List String) (variation : List (String × Value)) (k v : String)
    (hnd : (keysOf entries).Nodup) (hmem : (k, v) ∈ entries)
    (hb : k ≠ "brand") (hc : k ∉ consumed) (he : v ≠ "") :
    dget (copyRest entries consumed variation) k = some (coerceValue k v) := by
  induction entries generalizing variation with
  | nil => simp at hmem
  | cons p rest ih =>
    obtain ⟨k₀, v₀⟩ := p
    rw [keysOf_cons, List.nodup_cons] at hnd
    by_cases hk : k₀ = k
    · subst hk
      have hv : v₀ = v := by
        rcases List.mem_cons.1 hmem with h' | h'
        · injection h' with h1 h2
          exact h2.symm
        · exact absurd (mem_keysOf_of_mem h') hnd.1
      subst hv
      simp only [copyRest, if_neg hb, if_neg hc, if_neg he]
      rw [copyRest_dget_of_skipped _ _ _ _
        (fun v' hv' => absurd (mem_keysOf_of_mem hv') hnd.1)]
      exact dget_dset_self _ _ _
    · have hmem' : (k, v) ∈ rest := by
        rcases List.mem_cons.1 hmem with h' | h'
        · injection h' with h1 h2
          exact absurd h1.symm hk
        · exact h'
      simp only [copyRest]
      by_cases hb0 : k₀ = "brand"
      · simp [hb0, ih _ hnd.2 hmem']
      · simp only [if_neg hb0]
        by_cases hc0 : k₀ ∈ consumed
        · simp [hc0, ih _ hnd.2 hmem']
        · simp only [if_neg hc0]
          by_cases he0 : v₀ = ""
          · simp [he0, ih _ hnd.2 hmem']
          · simp only [if_neg he0]
            exact ih _ hnd.2 hmem'


/-! ### Catalog-assembler lemmas -/

theorem sumVar_addVariation (abn : List (String × Article)) (an : String) (v : Variation) :
    ((addVariation abn an v).map (fun p => p.2.variations.length)).sum
      = ((abn.map (fun p => p.2.variations.length)).sum) + 1 := by
  induction abn with
  | nil => simp [addVariation]
  | cons p rest ih =>
    obtain ⟨k, a⟩ := p
    by_cases h : k = an
    · simp [addVariation, h]
      omega
    · simp [addVariation, h, ih]
      omega

theorem dget_addVariation_self (abn : List (String × Article)) (an : String) (v : Variation) :
    dget (addVariation abn an v) an
      = some (match dget abn an with
              | some art => ⟨art.article_number, art.variations ++ [v]⟩
              | none => ⟨an, [v]⟩) := by
  induction abn with
  | nil => simp [addVariation, dget]
  | cons p rest ih =>
    obtain ⟨k, a⟩ := p
    by_cases h : k = an
    · simp [addVariation, h, dget]
    · simp [addVariation, h, dget, ih]

theorem dget_addVariation_other (abn : List (String × Article)) (an a : String)
    (v : Variation) (h : a ≠ an) : dget (addVariation abn an v) a = dget abn a := by
  have h' : ¬ an = a := fun he => h he.symm
  induction abn with
  | nil => simp [addVariation, dget, h']
  | cons p rest ih =>
    obtain ⟨k, art⟩ := p
    by_cases hk : k = an
    · subst hk
      simp [addVariation, dget, h']
    · simp [addVariation, hk, dget, ih]

theorem keysOf_addVariation (abn : List (String × Article)) (an : String) (v : Variation) :
    keysOf (addVariation abn an v)
      = if an ∈ keysOf abn then keysOf abn else keysOf abn ++ [an] := by
  induction abn with
  | nil => simp [addVariation, keysOf]
  | cons p rest ih =>
    obtain ⟨k, a⟩ := p
    by_cases h : k = an
    · simp [addVariation, h, keysOf_cons]
    · have h' : ¬ an = k := fun he => h he.symm
      by_cases hm : an ∈ keysOf rest
      · simp [addVariation, h, keysOf_cons, hm, h', ih]
      · simp [addVariation, h, keysOf_cons, hm, h', ih]

theorem build_aux_count (idx : MappingIndex) (rows : List Row)
    (abn : List (String × Article)) (cb : Option String) (n : Nat)
    (abn' : List (String × Article)) (cb' : Option String) (n' : Nat)
    (h : build_catalog_aux idx rows abn cb n = Except.ok (abn', cb', n')) :
    n' = n + rows.length ∧
      ((abn'.map (fun p => p.2.variations.length)).sum)
        = ((abn.map (fun p => p.2.variations.length)).sum) + rows.length := by
  induction rows generalizing abn cb n with
  | nil =>
    simp [build_catalog_aux] at h
    obtain ⟨h1, h2, h3⟩ := h
    subst h1; subst h3
    simp
  | cons row rest ih =>
    simp only [build_catalog_aux] at h
    cases hbc : brandCheck cb (rowGet row "brand") with
    | error e => simp [hbc] at h
    | ok b =>
      rw [hbc] at h
      by_cases han : rowGet row "article_number" = ""
      · simp [han] at h
      · simp only [if_neg han] at h
        obtain ⟨h1, h2⟩ := ih _ _ _ h
        rw [sumVar_addVariation] at h2
        constructor
        · simp only [List.length_cons]
          omega
        · simp only [List.length_cons]
          omega

theorem firstOccsAux_nodup (l : List String) (seen : List String) :
    (firstOccsAux seen l).Nodup ∧ ∀ x ∈ firstOccsAux seen l, x ∉ seen := by
  induction l generalizing seen with
  | nil => simp [firstOccsAux]
  | cons x xs ih =>
    by_cases hm : x ∈ seen
    · simp only [firstOccsAux, if_pos hm]
      exact ih seen
    · simp only [firstOccsAux, if_neg hm]
      obtain ⟨h1, h2⟩ := ih (seen ++ [x])
      refine ⟨List.nodup_cons.2 ⟨fun hx => ?_, h1⟩, ?_⟩
      · exact h2 x hx (List.mem_append_right _ (List.mem_singleton.2 rfl))
      · intro y hy
        rcases List.mem_cons.1 hy with h' | h'
        · subst h'; exact hm
        · exact fun hs => h2 y h' (List.mem_append_left _ hs)

theorem build_aux_keys (idx : MappingIndex) (rows : List Row)
    (abn : List (String × Article)) (cb : Option String) (n : Nat)
    (abn' : List (String × Article)) (cb' : Option String) (n' : Nat)
    (h : build_catalog_aux idx rows abn cb n = Except.ok (abn', cb', n')) :
    keysOf abn' = keysOf abn ++ firstOccsAux (keysOf abn) (rows.map rowArticle) := by
  induction rows generalizing abn cb n with
  | nil =>
    simp [build_catalog_aux] at h
    obtain ⟨h1, h2, h3⟩ := h
    subst h1
    simp [firstOccsAux]
  | cons row rest ih =>
    simp only [build_catalog_aux] at h
    cases hbc : brandCheck cb (rowGet row "brand") with
    | error e => simp [hbc] at h
    | ok b =>
      rw [hbc] at h
      by_cases han : rowGet row "article_number" = ""
      · simp [han] at h
      · simp only [if_neg han] at h
        have hkeys := keysOf_addVariation abn (rowGet row "article_number")
          (row_to_variation row idx)
        rw [ih _ _ _ h, hkeys]
        by_cases hmem : rowGet row "article_number" ∈ keysOf abn
        · simp only [if_pos hmem, List.map_cons]
          rw [show rowArticle row = rowGet row "article_number" from rfl]
          simp [firstOccsAux, hmem]
        · simp only [if_neg hmem, List.map_cons]
          rw [show rowArticle row = rowGet row "article_number" from rfl]
          simp [firstOccsAux, hmem, List.append_assoc]

/-- The variations the feed contributes to article number `a`, in row order. -/
def varsFor (rows : List Row) (idx : MappingIndex) (a : String) : List Variation :=
  (rows.filter (fun r => rowArticle r == a)).map (fun r => row_to_variation r idx)

theorem dget_addVariation_self_some (abn : List (String × Article)) (an : String)
    (v : Variation) (art : Article) (hg : dget abn an = some art) :
    dget (addVariation abn an v) an
      = some ⟨art.article_number, art.variations ++ [v]⟩ := by
  rw [dget_addVariation_self, hg]

theorem dget_addVariation_self_none (abn : List (String × Article)) (an : String)
    (v : Variation) (hg : dget abn an = none) :
    dget (addVariation abn an v) an = some ⟨an, [v]⟩ := by
  rw [dget_addVariation_self, hg]

theorem build_aux_values (idx : MappingIndex) (rows : List Row)
    (abn : List (String × Article)) (cb : Option String) (n : Nat)
    (abn' : List (String × Article)) (cb' : Option String) (n' : Nat)
    (h : build_catalog_aux idx rows abn cb n = Except.ok (abn', cb', n')) (a : String) :
    (∀ art, dget abn a = some art →
        dget abn' a = some ⟨art.article_number, art.variations ++ varsFor rows idx a⟩) ∧
      (dget abn a = none →
        dget abn' a
          = if varsFor rows idx a = [] then none else some ⟨a, varsFor rows idx a⟩) := by
  induction rows generalizing abn cb n with
  | nil =>
    simp [build_catalog_aux] at h
    obtain ⟨h1, h2, h3⟩ := h
    subst h1
    constructor
    · intro art hg
      rw [hg]
      cases art
      simp [varsFor]
    · intro hg
      rw [hg]
      simp [varsFor]
  | cons row rest ih =>
    simp only [build_catalog_aux] at h
    cases hbc : brandCheck cb (rowGet row "brand") with
    | error e => simp [hbc] at h
    | ok b =>
      rw [hbc] at h
      by_cases han : rowGet row "article_number" = ""
      · simp [han] at h
      · simp only [if_neg han] at h
        have hstep := ih _ _ _ h
        by_cases hak : a = rowGet row "article_number"
        · subst hak
          have hfil : varsFor (row :: rest) idx (rowGet row "article_number")
              = row_to_variation row idx
                  :: varsFor rest idx (rowGet row "article_number") := by
            simp [varsFor, List.filter_cons, rowArticle]
          rw [hfil]
          constructor
          · intro art hg
            have h1 := hstep.1
              ⟨art.article_number, art.variations ++ [row_to_variation row idx]⟩
              (dget_addVariation_self_some _ _ _ _ hg)
            rw [h1]
            simp
          · intro hg
            have h1 := hstep.1
              ⟨rowGet row "article_number", [row_to_variation row idx]⟩
              (dget_addVariation_self_none _ _ _ hg)
            rw [h1]
            simp
        · have hne : rowArticle row ≠ a := fun he => hak he.symm
          have hbe : (rowArticle row == a) = false := beq_eq_false_iff_ne.2 hne
          have hfil : varsFor (row :: rest) idx a = varsFor rest idx a := by
            simp [varsFor, List.filter_cons, hbe]
          rw [hfil]
          have hget := dget_addVariation_other abn (rowGet row "article_number") a
            (row_to_variation row idx) hak
          exact ⟨fun art hg => hstep.1 art (hget.trans hg),
                 fun hg => hstep.2 (hget.trans hg)⟩

/-! ### Structural-validator lemmas -/

theorem countVariationsAux_map (arts : List Article) (total : Nat) :
    countVariationsAux (arts.map articleToJ) total
      = Except.ok (total + (arts.map (fun a => a.variations.length)).sum) := by
  induction arts generalizing total with
  | nil => simp [countVariationsAux]
  | cons a rest ih =>
    simp only [List.map_cons, countVariationsAux, articleToJ, pyGetVariationsDefault, dget]
    simp [ih, Nat.add_assoc]

theorem basic_validations_catalogToJ (c : Catalog) (m : Nat) :
    basic_validations (catalogToJ c) m
      = if (c.articles.map (fun a => a.variations.length)).sum ≠ m
        then Except.error
          (mismatchMsg m ((c.articles.map (fun a => a.variations.length)).sum))
        else Except.ok () := by
  simp only [basic_validations, catalogToJ, dget, pyContainsKey, pySubscript]
  simp [dget, countVariationsAux_map]

/-! ### Mapping-index lemmas -/

/-- Lookup in the two-level index: field tuple first, then joined literal. -/
def idxLookup (idx : MappingIndex) (ft : List String) (lit : String) :
    Option (String × String) :=
  match dget idx ft with
  | none => none
  | some table => dget table lit

theorem idxLookup_idxInsert (idx : MappingIndex) (f : List String)
    (s dt dv : String) (ft : List String) (lit : String) :
    idxLookup (idxInsert idx f s dt dv) ft lit
      = if ft = f ∧ lit = s then some (dt, dv) else idxLookup idx ft lit := by
  by_cases hf : ft = f
  · subst hf
    cases hg : dget idx ft with
    | none =>
      simp only [idxInsert, hg, idxLookup, dget_append, hg, dget]
      by_cases hs : lit = s
      · subst hs
        simp [dget]
      · have hs' : ¬ s = lit := fun he => hs he.symm
        simp [hs, hs', hg, idxLookup, dget]
    | some table =>
      simp only [idxInsert, hg, idxLookup, dget_dset_self]
      by_cases hs : lit = s
      · subst hs
        simp [dget_dset_self]
      · simp [hs, dget_dset_other _ _ _ _ hs, hg, idxLookup]
  · cases hg : dget idx f with
    | none =>
      simp only [idxInsert, hg, idxLookup, dget_append, dget]
      have hf' : ¬ f = ft := fun he => hf he.symm
      simp [hf, hf']
      cases dget idx ft <;> simp
    | some table =>
      simp only [idxInsert, hg, idxLookup, dget_dset_other _ _ _ _ hf]
      simp [hf]

/-- Successful index construction resolves each key either to what it was
before, or to the destination pair of some processed rule with that key. -/
theorem load_aux_lookup (rules : List Row) (idx idx' : MappingIndex)
    (h : load_mappings_aux rules idx = Except.ok idx')
    (ft : List String) (lit : String) :
    idxLookup idx' ft lit = idxLookup idx ft lit ∨
      ∃ r ∈ rules, ruleFields r = ft ∧ ruleSource r = lit ∧
        idxLookup idx' ft lit = some (ruleDestType r, ruleDestValue r) := by
  induction rules generalizing idx with
  | nil =>
    simp [load_mappings_aux] at h
    subst h
    exact Or.inl rfl
  | cons r rest ih =>
    simp only [load_mappings_aux] at h
    by_cases h1 : ruleSourceType r = "" ∨ ruleDestType r = ""
    · simp [h1] at h
    · simp only [if_neg h1] at h
      by_cases h2 : ruleFields r = []
      · simp [h2] at h
      · simp only [if_neg h2] at h
        rcases ih _ h with h3 | ⟨r', hr', h4, h5, h6⟩
        · rw [idxLookup_idxInsert] at h3
          by_cases hkey : ft = ruleFields r ∧ lit = ruleSource r
          · refine Or.inr ⟨r, List.mem_cons_self _ _, hkey.1.symm, hkey.2.symm, ?_⟩
            rw [h3, if_pos hkey]
          · rw [if_neg hkey] at h3
            exact Or.inl h3
        · exact Or.inr ⟨r', List.mem_cons_of_mem _ hr', h4, h5, h6⟩

/-- Successful index construction keeps an entry for every processed rule. -/
theorem load_aux_mem (rules : List Row) (idx idx' : MappingIndex)
    (h : load_mappings_aux rules idx = Except.ok idx') (r : Row) (hr : r ∈ rules) :
    ∃ r' ∈ rules, ruleFields r' = ruleFields r ∧ ruleSource r' = ruleSource r ∧
      idxLookup idx' (ruleFields r) (ruleSource r)
        = some (ruleDestType r', ruleDestValue r') := by
  induction rules generalizing idx with
  | nil => simp at hr
  | cons r₀ rest ih =>
    simp only [load_mappings_aux] at h
    by_cases h1 : ruleSourceType r₀ = "" ∨ ruleDestType r₀ = ""
    · simp [h1] at h
    · simp only [if_neg h1] at h
      by_cases h2 : ruleFields r₀ = []
      · simp [h2] at h
      · simp only [if_neg h2] at h
        rcases List.mem_cons.1 hr with hr0 | hr0
        · subst hr0
          rcases load_aux_lookup rest _ _ h (ruleFields r) (ruleSource r) with h3 | h3
          · rw [idxLookup_idxInsert, if_pos ⟨rfl, rfl⟩] at h3
            exact ⟨r, List.mem_cons_self _ _, rfl, rfl, h3⟩
          · obtain ⟨r', hr', h4, h5, h6⟩ := h3
            exact ⟨r', List.mem_cons_of_mem _ hr', h4, h5, h6⟩
        · obtain ⟨r', hr', h4, h5, h6⟩ := ih _ h hr0
          exact ⟨r', List.mem_cons_of_mem _ hr', h4, h5, h6⟩

/-- Index construction raises exactly when some rule row is degenerate. -/
theorem load_aux_error_iff (rules : List Row) (idx : MappingIndex) :
    (∃ msg, load_mappings_aux rules idx = Except.error msg) ↔
      ∃ r ∈ rules,
        ruleSourceType r = "" ∨ ruleDestType r = "" ∨ ruleFields r = [] := by
  induction rules generalizing idx with
  | nil => simp [load_mappings_aux]
  | cons r rest ih =>
    simp only [load_mappings_aux]
    by_cases h1 : ruleSourceType r = "" ∨ ruleDestType r = ""
    · simp only [if_pos h1]
      constructor
      · intro _
        exact ⟨r, List.mem_cons_self _ _, by tauto⟩
      · intro _
        exact ⟨invalidTypesMsg r, rfl⟩
    · simp only [if_neg h1]
      by_cases h2 : ruleFields r = []
      · simp only [if_pos h2]
        constructor
        · intro _
          exact ⟨r, List.mem_cons_self _ _, Or.inr (Or.inr h2)⟩
        · intro _
          exact ⟨invalidFieldsMsg r, rfl⟩
      · simp only [if_neg h2]
        rw [ih]
        constructor
        · rintro ⟨r', hr', hbad⟩
          exact ⟨r', List.mem_cons_of_mem _ hr', hbad⟩
        · rintro ⟨r', hr', hbad⟩
          rcases List.mem_cons.1 hr' with h' | h'
          · subst h'
            push_neg at h1
            rcases hbad with hb | hb | hb
            · exact absurd hb h1.1
            · exact absurd hb h1.2
            · exact absurd hb h2
          · exact ⟨r', h', hbad⟩

/-- Once a catalog brand is fixed, a prefix of rows with the same brand and
usable article numbers is consumed, and the first differing row raises. -/
theorem build_aux_brand_error (idx : MappingIndex) (pre : List Row) (r : Row)
    (post : List Row) (abn : List (String × Article)) (b : String) (n : Nat)
    (hpre : ∀ p ∈ pre, rowBrand p = b ∧ rowArticle p ≠ "")
    (hr : rowBrand r ≠ b) :
    build_catalog_aux idx (pre ++ r :: post) abn (some b) n
      = Except.error (inconsistentBrandMsg b (rowBrand r)) := by
  induction pre generalizing abn n with
  | nil =>
    have hr' : ¬ rowGet r "brand" = b := hr
    simp [build_catalog_aux, brandCheck, hr', rowBrand]
  | cons p rest ih =>
    obtain ⟨hb1, hb2⟩ := hpre p (List.mem_cons_self _ _)
    have hb1' : rowGet p "brand" = b := hb1
    have hb2' : ¬ rowGet p "article_number" = "" := hb2
    simp [List.cons_append, build_catalog_aux, brandCheck, hb1', hb2']
    exact ih _ _ (fun q hq => hpre q (List.mem_cons_of_mem _ hq))

/-! ### Claims -/

/-- Claim C1: for every pricat feed on which catalog assembly succeeds, the
sum of the lengths of the variation sequences over all articles equals the
number of rows processed, and the Structural Validator fails with the
mismatch error on any other claimed row count. -/
theorem c1_variation_count_invariant (rows : List Row) (idx : MappingIndex)
    (cat : Catalog) (n : Nat)
    (h : build_catalog_from_pricat rows idx = Except.ok (cat, n)) :
    (cat.articles.map (fun a => a.variations.length)).sum = n ∧
      ∀ m, m ≠ n →
        basic_validations (catalogToJ cat) m = Except.error (mismatchMsg m n) := by
  unfold build_catalog_from_pricat at h
  cases hb : build_catalog_aux idx rows [] none 0 with
  | error e => rw [hb] at h; simp at h
  | ok t =>
    obtain ⟨abn, cb, n₀⟩ := t
    rw [hb] at h
    simp only [Except.ok.injEq, Prod.mk.injEq] at h
    obtain ⟨h1, h2⟩ := h
    obtain ⟨hc1, hc2⟩ := build_aux_count idx rows [] none 0 abn cb n₀ hb
    have hsum : (cat.articles.map (fun a => a.variations.length)).sum = n := by
      rw [← h1]
      simp only [List.map_map, Function.comp_def]
      simp only [List.map_nil, List.sum_nil] at hc2
      omega
    refine ⟨hsum, fun m hm => ?_⟩
    rw [basic_validations_catalogToJ, hsum, if_pos (fun he => hm he.symm)]

/-- Witness for C1 on a one-row feed. -/
theorem c1_variation_count_invariant_witness :
    ((Catalog.mk "b" [⟨"1", [[("article_number", Value.str "1")]]⟩]).articles.map
        (fun a => a.variations.length)).sum = 1 ∧
      basic_validations
          (catalogToJ (Catalog.mk "b" [⟨"1", [[("article_number", Value.str "1")]]⟩])) 0
        = Except.error (mismatchMsg 0 1) := by
  have h := c1_variation_count_invariant
    [[("brand", "b"), ("article_number", "1")]] []
    ⟨"b", [⟨"1", [[("article_number", Value.str "1")]]⟩]⟩ 1 rfl
  exact ⟨h.1, h.2 0 (by decide)⟩

/-- Claim C5: variations are grouped into one article per article number, in
row order, and articles appear in first-occurrence order of their numbers. -/
theorem c5_grouping_order (rows : List Row) (idx : MappingIndex)
    (cat : Catalog) (n : Nat)
    (h : build_catalog_from_pricat rows idx = Except.ok (cat, n)) :
    cat.articles.map Article.article_number = firstOccs (rows.map rowArticle) ∧
      ∀ art ∈ cat.articles, art.variations = varsFor rows idx art.article_number := by
  unfold build_catalog_from_pricat at h
  cases hb : build_catalog_aux idx rows [] none 0 with
  | error e => rw [hb] at h; simp at h
  | ok t =>
    obtain ⟨abn, cb, n₀⟩ := t
    rw [hb] at h
    simp only [Except.ok.injEq, Prod.mk.injEq] at h
    obtain ⟨h1, h2⟩ := h
    have hkeys := build_aux_keys idx rows [] none 0 abn cb n₀ hb
    simp only [keysOf, List.map_nil, List.nil_append] at hkeys
    have hnd : (keysOf abn).Nodup := by
      rw [keysOf, hkeys]
      exact (firstOccsAux_nodup (rows.map rowArticle) []).1
    have hent : ∀ p ∈ abn, p.2.article_number = p.1 ∧
        p.2.variations = varsFor rows idx p.1 := by
      intro p hp
      have hg : dget abn p.1 = some p.2 := dget_of_mem_nodup hnd hp
      have hv := (build_aux_values idx rows [] none 0 abn cb n₀ hb p.1).2
        (by simp [dget])
      rw [hg] at hv
      by_cases hemp : varsFor rows idx p.1 = []
      · rw [if_pos hemp] at hv
        exact absurd hv (by simp)
      · rw [if_neg hemp] at hv
        have := (Option.some.injEq _ _ ▸ hv)
        constructor
        · rw [this]
        · rw [this]
    constructor
    · rw [← h1]
      have : (abn.map Prod.snd).map Article.article_number
          = abn.map Prod.fst := by
        rw [List.map_map]
        exact List.map_congr_left (fun p hp => (hent p hp).1)
      rw [this, ← keysOf, keysOf, hkeys]
      rfl
    · intro art hart
      rw [← h1] at hart
      obtain ⟨p, hp, hpe⟩ := List.mem_map.1 hart
      obtain ⟨he1, he2⟩ := hent p hp
      rw [← hpe, he2, he1]

/-- Witness for C5 on a three-row feed with a repeated article number. -/
theorem c5_grouping_order_witness :
    (Catalog.mk "b"
        [⟨"1", [[("article_number", Value.str "1"), ("c", Value.str "v")],
                [("article_number", Value.str "1"), ("c", Value.str "w")]]⟩,
         ⟨"2", [[("article_number", Value.str "2")]]⟩]).articles.map
        Article.article_number
      = firstOccs
          (([[("brand", "b"), ("article_number", "1"), ("c", "v")],
             [("brand", "b"), ("article_number", "1"), ("c", "w")],
             [("brand", "b"), ("article_number", "2")]] : List Row).map rowArticle) ∧
      (Article.mk "1"
          [[("article_number", Value.str "1"), ("c", Value.str "v")],
           [("article_number", Value.str "1"), ("c", Value.str "w")]]).variations
        = varsFor
            [[("brand", "b"), ("article_number", "1"), ("c", "v")],
             [("brand", "b"), ("article_number", "1"), ("c", "w")],
             [("brand", "b"), ("article_number", "2")]] []
            (Article.mk "1"
              [[("article_number", Value.str "1"), ("c", Value.str "v")],
               [("article_number", Value.str "1"), ("c", Value.str "w")]]).article_number := by
  have h := c5_grouping_order
    [[("brand", "b"), ("article_number", "1"), ("c", "v")],
     [("brand", "b"), ("article_number", "1"), ("c", "w")],
     [("brand", "b"), ("article_number", "2")]] []
    ⟨"b", [⟨"1", [[("article_number", Value.str "1"), ("c", Value.str "v")],
                  [("article_number", Value.str "1"), ("c", Value.str "w")]]⟩,
           ⟨"2", [[("article_number", Value.str "2")]]⟩]⟩ 3 rfl
  exact ⟨h.1, h.2 _ (List.mem_cons_self _ _)⟩

/-- Counterexample to claim C6 as stated: the first row establishes brand
`a` and the second row's brand `b` differs, yet assembly fails with the
missing-article-number error for the first row, not with the
inconsistent-brand error. -/
theorem c6_counterexample :
    build_catalog_from_pricat
        [[("brand", "a")], [("brand", "b"), ("article_number", "1")]] []
      = Except.error (missingArticleMsg [("brand", "a")]) ∧
      missingArticleMsg [("brand", "a")] ≠ inconsistentBrandMsg "a" "b" := by
  exact ⟨rfl, by decide⟩

/-- Claim C6 (amended): if the first row and every row before the first
brand-mismatching row carry the established brand and a nonempty article
number, the first row whose brand differs makes assembly fail with the
inconsistent-brand error reporting both values, and no catalog is
returned. -/
theorem c6_inconsistent_brand (idx : MappingIndex) (r₀ : Row) (pre : List Row)
    (r : Row) (post : List Row)
    (h₀ : rowArticle r₀ ≠ "")
    (hpre : ∀ p ∈ pre, rowBrand p = rowBrand r₀ ∧ rowArticle p ≠ "")
    (hr : rowBrand r ≠ rowBrand r₀) :
    build_catalog_from_pricat (r₀ :: (pre ++ r :: post)) idx
      = Except.error (inconsistentBrandMsg (rowBrand r₀) (rowBrand r)) := by
  have h₀' : ¬ rowGet r₀ "article_number" = "" := h₀
  unfold build_catalog_from_pricat
  simp only [build_catalog_aux, brandCheck, h₀', if_neg]
  simp [h₀']
  rw [build_aux_brand_error idx pre r post _ (rowGet r₀ "brand") _ hpre hr]
  rfl

/-- Witness for the amended C6 on a three-row feed. -/
theorem c6_inconsistent_brand_witness :
    build_catalog_from_pricat
        [[("brand", "a"), ("article_number", "1")],
         [("brand", "a"), ("article_number", "2")],
         [("brand", "c"), ("article_number", "3")]] []
      = Except.error
          (inconsistentBrandMsg
            (rowBrand [("brand", "a"), ("article_number", "1")])
            (rowBrand [("brand", "c"), ("article_number", "3")])) := by
  exact c6_inconsistent_brand []
    [("brand", "a"), ("article_number", "1")]
    [[("brand", "a"), ("article_number", "2")]]
    [("brand", "c"), ("article_number", "3")] []
    (by decide) (by decide) (by decide)

/-- Claim C7: mapping-index construction fails exactly when some rule row has
an empty trimmed source type, an empty trimmed destination type, or no usable
source field names; on success every rule row has an entry at its field-name
tuple and trimmed source literal, holding the destination pair of a rule row
with that same key. -/
theorem c7_mapping_rule_validation (rules : List Row) :
    ((∃ msg, load_mappings_index rules = Except.error msg) ↔
        ∃ r ∈ rules,
          ruleSourceType r = "" ∨ ruleDestType r = "" ∨ ruleFields r = []) ∧
      ∀ idx, load_mappings_index rules = Except.ok idx →
        ∀ r ∈ rules, ∃ r' ∈ rules,
          ruleFields r' = ruleFields r ∧ ruleSource r' = ruleSource r ∧
            idxLookup idx (ruleFields r) (ruleSource r)
              = some (ruleDestType r', ruleDestValue r') := by
  refine ⟨load_aux_error_iff rules [], ?_⟩
  intro idx h r hr
  exact load_aux_mem rules [] idx h r hr

/-- Witness for C7: a degenerate rule row makes construction fail, and a
well-formed rule row is retrievable from the constructed index. -/
theorem c7_mapping_rule_validation_witness :
    (load_mappings_index [[("source_type", "|"), ("destination_type", "d")]]).isOk
        = false ∧
      idxLookup
          [(["size_group_code", "size_code"],
            [("EU|38", ("size", "European size 38"))])]
          (ruleFields
            [("source_type", "size_group_code|size_code"), ("source", "EU|38"),
             ("destination_type", "size"), ("destination", "European size 38")])
          (ruleSource
            [("source_type", "size_group_code|size_code"), ("source", "EU|38"),
             ("destination_type", "size"), ("destination", "European size 38")])
        = some ("size", "European size 38") := by
  constructor
  · obtain ⟨msg, hm⟩ :=
      (c7_mapping_rule_validation
        [[("source_type", "|"), ("destination_type", "d")]]).1.2
        ⟨[("source_type", "|"), ("destination_type", "d")],
          List.mem_cons_self _ _, by decide⟩
    rw [hm]
    rfl
  · obtain ⟨r', hr', h4, h5, h6⟩ :=
      (c7_mapping_rule_validation
        [[("source_type", "size_group_code|size_code"), ("source", "EU|38"),
          ("destination_type", "size"), ("destination", "European size 38")]]).2
        [(["size_group_code", "size_code"],
          [("EU|38", ("size", "European size 38"))])]
        rfl _ (List.mem_cons_self _ _)
    rcases List.mem_singleton.1 hr' with rfl
    rw [h6]
    decide

/-- Counterexample to claim C2 as stated: the row carries an unconsumed
non-empty raw field with the same name as the rule's destination `d`, and the
raw-copy pass overwrites the mapped value, so the variation does not map `d`
to the rule's destination value `w`. -/
theorem c2_counterexample :
    dget (row_to_variation [("a", "x"), ("b", "y"), ("d", "z")]
        [(["a", "b"], [("x|y", ("d", "w"))])]) "d"
      = some (Value.str "z") ∧ Value.str "z" ≠ Value.str "w" := by
  exact ⟨rfl, by decide⟩

/-- Claim C2 (amended): for the index holding exactly the combined rule
`(A, B) / "x|y" → (d, w)`, a row where `A = x` and `B = y`, where `d` is
distinct from `A` and `B` and every row entry named `d` is empty, produces a
variation mapping `d` to `w` and containing neither key `A` nor key `B`. -/
theorem c2_combined_rule (A B x y d w : String) (row : Row)
    (hA : rowGet row A = x) (hB : rowGet row B = y)
    (hdA : d ≠ A) (hdB : d ≠ B)
    (hd : ∀ v, (d, v) ∈ row → v = "") :
    dget (row_to_variation row [([A, B], [(x ++ "|" ++ y, (d, w))])]) d
      = some (Value.str w) ∧
      dget (row_to_variation row [([A, B], [(x ++ "|" ++ y, (d, w))])]) A = none ∧
      dget (row_to_variation row [([A, B], [(x ++ "|" ++ y, (d, w))])]) B = none := by
  have hs : applyMappingsAux row [([A, B], [(x ++ "|" ++ y, (d, w))])] [] []
      = ([(d, Value.str w)], [A, B]) := by
    simp [applyMappingsAux, hA, hB, joinWith, dget, dset]
  have hvar : row_to_variation row [([A, B], [(x ++ "|" ++ y, (d, w))])]
      = copyRest row [A, B] [(d, Value.str w)] := by
    unfold row_to_variation
    rw [hs]
  refine ⟨?_, ?_, ?_⟩
  · rw [hvar, copyRest_dget_of_skipped _ _ _ _
      (fun v' hv => Or.inr (Or.inr (hd v' hv)))]
    simp [dget]
  · rw [hvar, copyRest_dget_of_skipped _ _ _ _
      (fun v' _ => Or.inr (Or.inl (by simp)))]
    simp [dget, hdA]
  · rw [hvar, copyRest_dget_of_skipped _ _ _ _
      (fun v' _ => Or.inr (Or.inl (by simp)))]
    simp [dget, hdB]

/-- Witness for the amended C2 on the spec's combined-size scenario. -/
theorem c2_combined_rule_witness :
    dget (row_to_variation
        [("size_group_code", "EU"), ("size_code", "38"), ("ean", "123")]
        [(["size_group_code", "size_code"],
          [("EU" ++ "|" ++ "38", ("size", "European size 38"))])]) "size"
      = some (Value.str "European size 38") ∧
      dget (row_to_variation
          [("size_group_code", "EU"), ("size_code", "38"), ("ean", "123")]
          [(["size_group_code", "size_code"],
            [("EU" ++ "|" ++ "38", ("size", "European size 38"))])])
          "size_group_code" = none ∧
      dget (row_to_variation
          [("size_group_code", "EU"), ("size_code", "38"), ("ean", "123")]
          [(["size_group_code", "size_code"],
            [("EU" ++ "|" ++ "38", ("size", "European size 38"))])])
          "size_code" = none := by
  exact c2_combined_rule "size_group_code" "size_code" "EU" "38" "size"
    "European size 38"
    [("size_group_code", "EU"), ("size_code", "38"), ("ean", "123")]
    (by decide) (by decide) (by decide) (by decide)
    (by intro v hv; simp at hv)

/-- Counterexample to claim C3 as stated: a mapping rule whose destination
field is literally `brand` writes a `brand` key into the variation. -/
theorem c3_counterexample :
    dget (row_to_variation [("color", "red")]
        [(["color"], [("red", ("brand", "X"))])]) "brand"
      = some (Value.str "X") := by
  rfl

/-- Claim C3 (amended): for every raw row and every mapping index none of
whose rules has destination field `brand`, the variation produced by the
Variation Builder never contains a `brand` key. -/
theorem c3_no_brand_key (row : Row) (idx : MappingIndex)
    (h : ∀ p ∈ idx, ∀ q ∈ p.2, q.2.1 ≠ "brand") :
    dget (row_to_variation row idx) "brand" = none := by
  have hm : dget (applyMappingsAux row idx [] []).1 "brand" = none := by
    rw [applyMappings_dget_of_no_dest _ _ _ _ _ h]
    rfl
  have hc : dget (copyRest row (applyMappingsAux row idx [] []).2
      (applyMappingsAux row idx [] []).1) "brand"
      = dget (applyMappingsAux row idx [] []).1 "brand" :=
    copyRest_dget_of_skipped _ _ _ _ (fun v' _ => Or.inl rfl)
  exact hc.trans hm

/-- Witness for the amended C3. -/
theorem c3_no_brand_key_witness :
    dget (row_to_variation [("color", "red"), ("brand", "B")]
        [(["color"], [("red", ("colour", "Red"))])]) "brand" = none := by
  exact c3_no_brand_key _ _ (by decide)

/-- Counterexample to claim C4 as stated: for `k = brand` the raw-copy pass
skips the field, so the mapped value written by a rule with destination
`brand` is NOT overwritten by the row's raw brand value. -/
theorem c4_counterexample :
    dget (row_to_variation [("color", "red"), ("brand", "B")]
        [(["color"], [("red", ("brand", "X"))])]) "brand"
      = some (Value.str "X") ∧ Value.str "X" ≠ Value.str "B" := by
  exact ⟨rfl, by decide⟩

/-- Claim C4 (amended): for every non-`brand` field `k` of a duplicate-free
row whose value is non-empty and not consumed by any fired rule, even when
some fired rule wrote destination `k`, the raw-copy pass overwrites the
mapped value: the final variation holds the (numerically coerced) raw row
value — the pass checks only the consumed-source set, never the destination
fields written. -/
theorem c4_raw_copy_overwrites (row : Row) (idx : MappingIndex)
    (k v : String) (w : Value)
    (hnd : (keysOf row).Nodup) (hmem : (k, v) ∈ row) (hv : v ≠ "")
    (hb : k ≠ "brand")
    (hc : k ∉ (applyMappingsAux row idx [] []).2)
    (hw : dget (applyMappingsAux row idx [] []).1 k = some w) :
    dget (row_to_variation row idx) k = some (coerceValue k v) := by
  exact copyRest_dget_writes row (applyMappingsAux row idx [] []).2
    (applyMappingsAux row idx [] []).1 k v hnd hmem hb hc hv

/-- Witness for the amended C4: the rule maps `color=red` to `note=X`, and
the raw unconsumed `note=N` column silently overwrites it. -/
theorem c4_raw_copy_overwrites_witness :
    dget (row_to_variation [("color", "red"), ("note", "N")]
        [(["color"], [("red", ("note", "X"))])]) "note"
      = some (coerceValue "note" "N") := by
  exact c4_raw_copy_overwrites [("color", "red"), ("note", "N")]
    [(["color"], [("red", ("note", "X"))])] "note" "N" (Value.str "X")
    (by decide) (by simp) (by decide) (by decide) (by decide) rfl

/-- Claim C8: a numeric-set field whose non-empty value is not consumed is
stored as a number when the value parses as a Python float and as the
original string otherwise; parsing never raises (the builder is total). -/
theorem c8_numeric_coercion (row : Row) (idx : MappingIndex) (k v : String)
    (hk : k ∈ NUMERIC_FIELDS) (hnd : (keysOf row).Nodup) (hmem : (k, v) ∈ row)
    (hv : v ≠ "") (hc : k ∉ (applyMappingsAux row idx [] []).2) :
    (pyFloatAccepts v = true →
        dget (row_to_variation row idx) k = some (Value.num v)) ∧
      (pyFloatAccepts v = false →
        dget (row_to_variation row idx) k = some (Value.str v)) := by
  have hb : k ≠ "brand" := by
    have hk' := hk
    simp [NUMERIC_FIELDS] at hk'
    rcases hk' with rfl | rfl | rfl | rfl <;> decide
  have hmain : dget (row_to_variation row idx) k = some (coerceValue k v) :=
    copyRest_dget_writes row (applyMappingsAux row idx [] []).2
      (applyMappingsAux row idx [] []).1 k v hnd hmem hb hc hv
  rw [coerceValue, if_pos hk] at hmain
  constructor
  · intro hp
    simpa [hp] using hmain
  · intro hp
    simpa [hp] using hmain

/-- Witness for C8 with a parsing and a non-parsing price value. -/
theorem c8_numeric_coercion_witness :
    dget (row_to_variation [("price_sell", "12.5")] []) "price_sell"
      = some (Value.num "12.5") ∧
      dget (row_to_variation [("price_sell", "abc")] []) "price_sell"
        = some (Value.str "abc") := by
  constructor
  · exact (c8_numeric_coercion [("price_sell", "12.5")] [] "price_sell" "12.5"
      (by decide) (by decide) (by simp) (by decide) (by decide)).1 rfl
  · exact (c8_numeric_coercion [("price_sell", "abc")] [] "price_sell" "abc"
      (by decide) (by decide) (by simp) (by decide) (by decide)).2 rfl

/-- Claim C10: a source field missing from the row contributes `""` to the
joined lookup key, so a rule whose literal is the pipe-join of empty strings
over its tuple fires whenever all of its fields are missing or empty: its
destination key is written into the variation (and survives to the final
variation) and all its field names are marked consumed. -/
theorem c10_empty_literal_fires (row : Row) (idx : MappingIndex)
    (ft : List String) (table : List (String × (String × String))) (d w : String)
    (hmem : (ft, table) ∈ idx)
    (hempty : ∀ f ∈ ft, rowGet row f = "")
    (hlit : dget table (joinWith "|" (ft.map (fun _ => ""))) = some (d, w)) :
    (dget (applyMappingsAux row idx [] []).1 d).isSome ∧
      (∀ f ∈ ft, f ∈ (applyMappingsAux row idx [] []).2) ∧
      (dget (row_to_variation row idx) d).isSome := by
  have hjoin : ft.map (fun f => rowGet row f) = ft.map (fun _ => "") :=
    List.map_congr_left hempty
  have hhit : dget table (joinWith "|" (ft.map (fun f => rowGet row f)))
      = some (d, w) := by
    rw [hjoin]
    exact hlit
  obtain ⟨h1, h2⟩ := applyMappings_fires row idx [] [] ft table d w hmem hhit
  exact ⟨h1, h2, copyRest_key_mono row (applyMappingsAux row idx [] []).2
    (applyMappingsAux row idx [] []).1 d h1⟩

/-- Witness for C10: a single-field rule with empty literal fires on a row
that lacks the field entirely. -/
theorem c10_empty_literal_fires_witness :
    (dget (applyMappingsAux [] [(["size"], [("", ("size_label", "unsized"))])]
        [] []).1 "size_label").isSome ∧
      "size" ∈ (applyMappingsAux [] [(["size"], [("", ("size_label", "unsized"))])]
        [] []).2 ∧
      (dget (row_to_variation []
        [(["size"], [("", ("size_label", "unsized"))])]) "size_label").isSome := by
  obtain ⟨h1, h2, h3⟩ := c10_empty_literal_fires []
    [(["size"], [("", ("size_label", "unsized"))])]
    ["size"] [("", ("size_label", "unsized"))] "size_label" "unsized"
    (by simp) (by decide) (by decide)
  exact ⟨h1, h2 "size" (List.mem_cons_self _ _), h3⟩

/-- The counting loop raises the variations error when the articles are all
dicts and some article holds a non-list `variations` value. -/
theorem countVariationsAux_error (arts : List JValue) (total : Nat)
    (hobj : ∀ a ∈ arts, ∃ afs, a = JValue.obj afs)
    (hbad : ∃ a ∈ arts, ∃ afs vv, a = JValue.obj afs ∧
      dget afs "variations" = some vv ∧ ∀ l, vv ≠ JValue.arr l) :
    countVariationsAux arts total
      = Except.error "Some \x27article.variations\x27 are not a list." := by
  induction arts generalizing total with
  | nil => simp at hbad
  | cons a rest ih =>
    obtain ⟨afs, rfl⟩ := hobj a (List.mem_cons_self _ _)
    have hobj' : ∀ a ∈ rest, ∃ afs, a = JValue.obj afs :=
      fun a ha => hobj a (List.mem_cons_of_mem _ ha)
    simp only [countVariationsAux, pyGetVariationsDefault]
    cases hg : dget afs "variations" with
    | none =>
      have hbad' : ∃ a ∈ rest, ∃ afs vv, a = JValue.obj afs ∧
          dget afs "variations" = some vv ∧ ∀ l, vv ≠ JValue.arr l := by
        obtain ⟨a', ha', afs', vv', he, hv, hl⟩ := hbad
        rcases List.mem_cons.1 ha' with h' | h'
        · subst h'
          injection he with he'
          subst he'
          rw [hg] at hv
          exact absurd hv (by simp)
        · exact ⟨a', h', afs', vv', he, hv, hl⟩
      simp [hg, ih _ hobj' hbad']
    | some vv =>
      cases vv with
      | arr l =>
        have hbad' : ∃ a ∈ rest, ∃ afs vv, a = JValue.obj afs ∧
            dget afs "variations" = some vv ∧ ∀ l, vv ≠ JValue.arr l := by
          obtain ⟨a', ha', afs', vv', he, hv, hl⟩ := hbad
          rcases List.mem_cons.1 ha' with h' | h'
          · subst h'
            injection he with he'
            subst he'
            rw [hg] at hv
            injection hv with hv'
            exact absurd hv'.symm (hl l)
          · exact ⟨a', h', afs', vv', he, hv, hl⟩
        simp [hg, ih _ hobj' hbad']
      | str s => simp [hg]
      | num s => simp [hg]
      | obj fs => simp [hg]

/-- Counterexample to claim C9 as stated: a catalog document with an
`articles` list but no `brand` field passes the Structural Validator. -/
theorem c9_counterexample :
    basic_validations [("catalog", JValue.obj [("articles", JValue.arr [])])] 0
      = Except.ok () := by
  rfl

/-- Claim C9 (amended): the Structural Validator fails with the check-naming
error when the document has no `catalog` key, when the catalog dict has no
`articles` key, when `articles` is not a list, and when some article dict
holds a non-list `variations` value; the `brand` field is never checked (a
brand-less catalog document is accepted). -/
theorem c9_structural_checks (result : List (String × JValue)) (rows_processed : Nat) :
    (dget result "catalog" = none →
        basic_validations result rows_processed
          = Except.error "JSON has no \x27catalog\x27 key") ∧
      (∀ cfs, dget result "catalog" = some (JValue.obj cfs) →
        dget cfs "articles" = none →
          basic_validations result rows_processed
            = Except.error "JSON has no \x27catalog.articles\x27") ∧
      (∀ cfs v, dget result "catalog" = some (JValue.obj cfs) →
        dget cfs "articles" = some v → (∀ l, v ≠ JValue.arr l) →
          basic_validations result rows_processed
            = Except.error "\x27catalog.articles\x27 is not a list.") ∧
      (∀ cfs arts, dget result "catalog" = some (JValue.obj cfs) →
        dget cfs "articles" = some (JValue.arr arts) →
        (∀ a ∈ arts, ∃ afs, a = JValue.obj afs) →
        (∃ a ∈ arts, ∃ afs vv, a = JValue.obj afs ∧
            dget afs "variations" = some vv ∧ ∀ l, vv ≠ JValue.arr l) →
          basic_validations result rows_processed
            = Except.error "Some \x27article.variations\x27 are not a list.") := by
  refine ⟨?_, ?_, ?_, ?_⟩
  · intro h
    simp [basic_validations, h]
  · intro cfs h1 h2
    simp [basic_validations, h1, pyContainsKey, h2]
  · intro cfs v h1 h2 hv
    cases v with
    | arr l => exact absurd rfl (hv l)
    | str s => simp [basic_validations, h1, pyContainsKey, pySubscript, h2]
    | num s => simp [basic_validations, h1, pyContainsKey, pySubscript, h2]
    | obj fs => simp [basic_validations, h1, pyContainsKey, pySubscript, h2]
  · intro cfs arts h1 h2 hobj hbad
    simp [basic_validations, h1, pyContainsKey, pySubscript, h2,
      countVariationsAux_error arts 0 hobj hbad]

/-- Witness for the amended C9 on four concrete malformed documents. -/
theorem c9_structural_checks_witness :
    basic_validations [] 0 = Except.error "JSON has no \x27catalog\x27 key" ∧
      basic_validations [("catalog", JValue.obj [])] 0
        = Except.error "JSON has no \x27catalog.articles\x27" ∧
      basic_validations [("catalog", JValue.obj [("articles", JValue.num "1")])] 0
        = Except.error "\x27catalog.articles\x27 is not a list." ∧
      basic_validations
          [("catalog", JValue.obj
            [("articles", JValue.arr [JValue.obj [("variations", JValue.num "2")]])])] 0
        = Except.error "Some \x27article.variations\x27 are not a list." := by
  refine ⟨?_, ?_, ?_, ?_⟩
  · exact (c9_structural_checks [] 0).1 rfl
  · exact (c9_structural_checks [("catalog", JValue.obj [])] 0).2.1 [] rfl rfl
  · exact (c9_structural_checks
      [("catalog", JValue.obj [("articles", JValue.num "1")])] 0).2.2.1
      [("articles", JValue.num "1")] (JValue.num "1") rfl rfl
      (fun l h => JValue.noConfusion h)
  · exact (c9_structural_checks
      [("catalog", JValue.obj
        [("articles", JValue.arr [JValue.obj [("variations", JValue.num "2")]])])]
      0).2.2.2
      [("articles", JValue.arr [JValue.obj [("variations", JValue.num "2")]])]
      [JValue.obj [("variations", JValue.num "2")]] rfl rfl
      (by intro a ha
          simp at ha
          exact ⟨[("variations", JValue.num "2")], ha⟩)
      ⟨JValue.obj [("variations", JValue.num "2")], by simp,
        [("variations", JValue.num "2")], JValue.num "2", rfl, rfl,
        fun l h => JValue.noConfusion h⟩
